import Mathlib

/-!
Verification of the ExecuteFarsitePiece orchestration pipeline
(src/pieces/ExecuteFarsitePiece/piece.py) against its design
specification.

The Python code is shallowly embedded: the filesystem is an explicit
state value (an association list of file paths to contents, a list of
existing directories, and a list of created zip archives), every
fallible operation returns the mutated state together with an
`Except` value, and the external process invoked by `subprocess.run`
is a parameter (an arbitrary function from the command line and the
filesystem state to an exit status, a captured-output text, and a new
filesystem state).

Paths are modelled as strings, assumed normalised (no duplicate or
trailing slashes), matching how the Python code manipulates them via
`os.path` and `pathlib`.
-/

deriving instance DecidableEq for Except

namespace Farsite

/-! ### Path helpers (os.path.basename, pathlib suffix and stem, glob) -/

/-- Python `str.lower()` restricted to the ASCII range, the only case
relevant for extension comparison. -/
def lowerStr (s : String) : String :=
  String.mk (s.data.map Char.toLower)

/-- One step of scanning a path left to right: a `/` resets the
accumulated final component. -/
def basenameStep (acc : List Char) (c : Char) : List Char :=
  if c = '/' then [] else acc ++ [c]

/-- Characters of the final path component (`os.path.basename`). -/
def basenameChars (l : List Char) : List Char :=
  l.foldl basenameStep []

/-- `os.path.basename`: the part of the path after the last slash. -/
def basename (s : String) : String :=
  String.mk (basenameChars s.data)

/-- Index of the last occurrence of a dot in a list of characters
(Python `str.rfind`), `none` when there is no dot. -/
def rfindDot : List Char → Option Nat
  | [] => none
  | c :: rest =>
    match rfindDot rest with
    | some k => some (k + 1)
    | none => if c = '.' then some 0 else none

/-- Characters of `pathlib.Path(p).suffix`: the extension of the last
component, empty when the last dot is at position 0 (hidden file) or
at the very end (trailing dot). -/
def pySuffix (l : List Char) : List Char :=
  let name := basenameChars l
  match rfindDot name with
  | some i => if 0 < i && i + 1 < name.length then name.drop i else []
  | none => []

/-- `pathlib.Path(p).suffix` as a string. -/
def suffixStr (s : String) : String :=
  String.mk (pySuffix s.data)

/-- Characters of `pathlib.Path(p).with_suffix("")`: the path with its
computed suffix removed from the end. -/
def stemChars (l : List Char) : List Char :=
  l.take (l.length - (pySuffix l).length)

/-- `str(pathlib.Path(p).with_suffix(""))` as a string. -/
def stemStr (s : String) : String :=
  String.mk (stemChars s.data)

/-- Boolean list-prefix test, used both for glob matching and for the
directory-containment relation on paths. -/
def listStarts : List Char → List Char → Bool
  | [], _ => true
  | _ :: _, [] => false
  | a :: as, b :: bs => a == b && listStarts as bs

/-- A path `q` matches the glob pattern `stem.*`: it extends
`stem ++ "."` and the remainder contains no slash (a glob `*` never
crosses a path separator). -/
def globMatchStem (stem : List Char) (q : List Char) : Bool :=
  listStarts (stem ++ ['.']) q && (q.drop (stem.length + 1)).all (fun c => ! (c = '/'))

/-- `dir ++ "/"` is a prefix of `p`: the file `p` lives (possibly
transitively) under the directory `dir`. -/
def isUnder (p dir : String) : Bool :=
  listStarts (dir ++ "/").data p.data

/-- The path `p` made relative to `root` (drop `root` and the
following slash), as `shutil.make_archive` stores entries. -/
def relTo (root p : String) : String :=
  String.mk (p.data.drop (root.data.length + 1))

/-! ### Filesystem state -/

/-- Explicit filesystem state: regular files (path and content),
existing directories, and zip archives (path and entry list, each
entry a root-relative path with its content). -/
structure FS where
  files : List (String × String)
  dirs : List String
  zips : List (String × List (String × String))
deriving DecidableEq, Repr

/-- The paths of all regular files. -/
def FS.paths (fs : FS) : List String :=
  fs.files.map Prod.fst

/-- Content of the file at `p`, if present. -/
def FS.lookupFile (fs : FS) (p : String) : Option String :=
  fs.files.lookup p

/-- Entry list of the zip archive at `p`, if present. -/
def FS.zipLookup (fs : FS) (p : String) : Option (List (String × String)) :=
  fs.zips.lookup p

/-- `os.path.exists` restricted to regular files (the only use in the
code checks for the runner log file). -/
def FS.pathExists (fs : FS) (p : String) : Bool :=
  (fs.lookupFile p).isSome

/-- Write `c` to the file at `p`, truncating any previous content
(Python `open(p, "w")`). -/
def FS.writeFile (fs : FS) (p c : String) : FS :=
  FS.mk ((p, c) :: fs.files.filter (fun e => ! (e.1 = p))) fs.dirs fs.zips

/-- `os.makedirs(p, exist_ok=True)`: record the directory, a no-op if
it already exists. -/
def FS.ensureDir (fs : FS) (d : String) : FS :=
  if d ∈ fs.dirs then fs else FS.mk fs.files (d :: fs.dirs) fs.zips

/-! ### Error taxonomy (the Python exception classes actually raised) -/

/-- Errors raised by the piece: `ValueError` (spec
`InvalidInputFormat`), `FileNotFoundError` (spec `MissingInput` /
`MissingCompanionFiles`), and `RuntimeError` (spec
`ExternalProcessFailure`, carrying the exit status and the two path
slots interpolated into its message: the selected log and the
fallback log). -/
inductive PieceError where
  | valueError (path : String)
  | fileNotFound (path : String)
  | runtimeError (rc : Int) (seeLog : String) (fallbackLog : String)
deriving DecidableEq, Repr

/-! ### Data model (models.py) -/

/-- InputModel of models.py. -/
structure InputModel where
  lcp_path : String
  inputs_path : String
  ignition_shp_path : String
  barrier_shp_path : Option String
  output_basename : String
  outputs_type : Int
deriving DecidableEq, Repr

/-- OutputModel of models.py. -/
structure OutputModel where
  outputs_zip_path : String
  runner_log_path : String
deriving DecidableEq, Repr

/-- Result of `subprocess.run` with merged stdout and stderr. -/
structure ProcResult where
  returncode : Int
  stdout : String
deriving DecidableEq, Repr

/-! ### Piece operations (piece.py) -/

/-- `shutil.copy2(src, dst)`: fails when the source file is absent,
otherwise writes the destination with the source's content. -/
def copy2 (fs : FS) (src dst : String) : FS × Except PieceError Unit :=
  match fs.lookupFile src with
  | none => (fs, Except.error (PieceError.fileNotFound src))
  | some c => (fs.writeFile dst c, Except.ok ())

/-- `_copy_file`: ensure the destination directory, then copy one
file preserving its basename; returns the destination path. -/
def copy_file (fs : FS) (src dstDir : String) : FS × Except PieceError String :=
  let fs1 := fs.ensureDir dstDir
  let dst := dstDir ++ "/" ++ basename src
  match copy2 fs1 src dst with
  | (fs2, Except.error e) => (fs2, Except.error e)
  | (fs2, Except.ok _) => (fs2, Except.ok dst)

/-- The files matched by `glob.glob(str(stem) + ".*")`: every regular
file whose path extends `stem ++ "."` without a further slash. -/
def globMatches (fs : FS) (stem : String) : List String :=
  (FS.paths fs).filter (fun q => globMatchStem stem.data q.data)

/-- The copy loop `for f in matched: shutil.copy2(f, dst/basename f)`.
The sources come from the glob over the live filesystem, so the
lookup always succeeds in actual executions; a vanished source is
modelled as a skip. -/
def copyAll (dst : String) : FS → List String → FS
  | fs, [] => fs
  | fs, f :: rest =>
    match fs.lookupFile f with
    | some c => copyAll dst (fs.writeFile (dst ++ "/" ++ basename f) c) rest
    | none => copyAll dst fs rest

/-- `_copy_shapefile_set`: ensure the destination directory, validate
the `.shp` suffix case-insensitively, enumerate the `stem.*` glob,
fail when it matches nothing, copy every match preserving basenames,
and return the destination path of the primary. -/
def copy_shapefile_set (fs : FS) (shp_path dst_dir : String) : FS × Except PieceError String :=
  if lowerStr (suffixStr shp_path) ≠ ".shp" then
    (fs.ensureDir dst_dir, Except.error (PieceError.valueError shp_path))
  else if globMatches (fs.ensureDir dst_dir) (stemStr shp_path) = [] then
    (fs.ensureDir dst_dir, Except.error (PieceError.fileNotFound shp_path))
  else
    (copyAll dst_dir (fs.ensureDir dst_dir) (globMatches (fs.ensureDir dst_dir) (stemStr shp_path)),
     Except.ok (dst_dir ++ "/" ++ basename shp_path))

/-- The fixed wrapper-script path. -/
def wrapperPath : String := "/usr/local/bin/run_farsite.sh"

/-- The output-base argument. The source line reads
`output_base = /work/out/run1` (the string quotes are missing there —
a slip; the commented-out alternative derives it from
`output_basename` instead): modelled as the fixed literal. -/
def outputBase : String := "/work/out/run1"

/-- The runner log the wrapper is expected to write:
`f"{output_base}_runner.log"`. -/
def runnerLogPathConst : String := outputBase ++ "_runner.log"

/-- The guaranteed fallback log:
`os.path.join(work_root, f"{output_basename}_stdout.log")`. -/
def fallbackLogOf (input : InputModel) : String :=
  "/work/" ++ input.output_basename ++ "_stdout.log"

/-- Python truthiness of the barrier test: the barrier is left as the
sentinel when the field is `None`, empty, or the literal `"0"`. -/
def sentinelBarrier : Option String → Bool
  | none => true
  | some s => s = "" || s = "0"

/-- The staging prefix of `piece_function`: ensure `/work/in` and
`/work/out`, copy the landscape file, the inputs file, and the
ignition shapefile set; returns the three staged paths. -/
def stageMandatory (input : InputModel) (fs : FS) : FS × Except PieceError (String × String × String) :=
  let fs1 := (fs.ensureDir "/work/in").ensureDir "/work/out"
  match copy_file fs1 input.lcp_path "/work/in" with
  | (fs2, Except.error e) => (fs2, Except.error e)
  | (fs2, Except.ok l) =>
    match copy_file fs2 input.inputs_path "/work/in" with
    | (fs3, Except.error e) => (fs3, Except.error e)
    | (fs3, Except.ok i) =>
      match copy_shapefile_set fs3 input.ignition_shp_path "/work/in" with
      | (fs4, Except.error e) => (fs4, Except.error e)
      | (fs4, Except.ok g) => (fs4, Except.ok (l, i, g))

/-- Input staging and command construction of `piece_function`: the
mandatory copies, then the barrier argument (the literal `"0"` or a
resolved shapefile set), then the fixed seven-element command line. -/
def piece_stage (input : InputModel) (fs : FS) : FS × Except PieceError (List String) :=
  match stageMandatory input fs with
  | (fs1, Except.error e) => (fs1, Except.error e)
  | (fs1, Except.ok (l, i, g)) =>
    if sentinelBarrier input.barrier_shp_path then
      (fs1, Except.ok [wrapperPath, l, i, g, "0", outputBase, toString input.outputs_type])
    else
      match copy_shapefile_set fs1 (input.barrier_shp_path.getD "") "/work/in" with
      | (fs2, Except.error e) => (fs2, Except.error e)
      | (fs2, Except.ok barg) =>
        (fs2, Except.ok [wrapperPath, l, i, g, barg, outputBase, toString input.outputs_type])

/-- The entries `shutil.make_archive(base, "zip", root)` stores: every
regular file under `root`, keyed by its root-relative path. -/
def archiveEntries (fs : FS) (root : String) : List (String × String) :=
  fs.files.filterMap (fun e => if isUnder e.1 root then some (relTo root e.1, e.2) else none)

/-- `shutil.make_archive(base, "zip", root)`: create (or replace) the
zip at `base ++ ".zip"` with a snapshot of everything under `root`;
returns the new state and the zip path. -/
def makeArchive (fs : FS) (base root : String) : FS × String :=
  let zp := base ++ ".zip"
  (FS.mk fs.files fs.dirs ((zp, archiveEntries fs root) :: fs.zips.filter (fun e => ! (e.1 = zp))), zp)

/-- The post-invocation suffix of `piece_function`: always write the
captured output to the fallback log, select the runner log when it
exists on disk, raise `RuntimeError` on a nonzero exit status, and
otherwise zip `/work/out` and return the result model. -/
def classifyAndPackage (input : InputModel) (rc : Int) (captured : String) (fs : FS) :
    FS × Except PieceError OutputModel :=
  let fs1 := fs.writeFile (fallbackLogOf input) captured
  let sel := if fs1.pathExists runnerLogPathConst then runnerLogPathConst else fallbackLogOf input
  if rc ≠ 0 then
    (fs1, Except.error (PieceError.runtimeError rc sel (fallbackLogOf input)))
  else
    let za := makeArchive fs1 ("/work/" ++ input.output_basename ++ "_outputs") "/work/out"
    (za.1, Except.ok (OutputModel.mk za.2 sel))

/-- `piece_function`: staging, external invocation (the parameter
`proc` receives the command line and the filesystem and yields the
exit status, the merged captured output, and its filesystem effect),
then classification and packaging. -/
def piece_function (proc : List String → FS → ProcResult × FS) (input : InputModel) (fs : FS) :
    FS × Except PieceError OutputModel :=
  match piece_stage input fs with
  | (fs1, Except.error e) => (fs1, Except.error e)
  | (fs1, Except.ok cmd) =>
    let pr := proc cmd fs1
    classifyAndPackage input pr.1.returncode pr.1.stdout pr.2

/-- The log path the run reports as authoritative: the
`runner_log_path` field on success, the selected-log slot of the
`RuntimeError` on failure. -/
def selectedLogOf (r : FS × Except PieceError OutputModel) : Option String :=
  match r.2 with
  | Except.ok o => some o.runner_log_path
  | Except.error (PieceError.runtimeError _ s _) => some s
  | Except.error _ => none

/-- The exit status carried by a raised `RuntimeError`, if any. -/
def rcOfError : Except PieceError OutputModel → Option Int
  | Except.error (PieceError.runtimeError rc _ _) => some rc
  | _ => none

/-- The log paths interpolated into a raised `RuntimeError` message
(`"See logs: {runner_log_path} (and {fallback_log})."`). -/
def errorPathsOf : Except PieceError OutputModel → List String
  | Except.error (PieceError.runtimeError _ a b) => [a, b]
  | _ => []

/-! ### Concrete fixtures for witnesses and counterexamples -/

/-- A source filesystem holding a landscape file, an inputs file, and
an ignition shapefile with one sidecar. -/
def fs0 : FS :=
  FS.mk [("/data/area.lcp", "L"), ("/data/run.input", "I"),
         ("/data/ign.shp", "S"), ("/data/ign.dbf", "D")] [] []

/-- A request staging the fixture files with the sentinel barrier and
the default basename and output type. -/
def input0 : InputModel :=
  InputModel.mk "/data/area.lcp" "/data/run.input" "/data/ign.shp" (some "0") "farsite_run" 1

/-- An external process that exits with status 1, emits `boom`, and
touches nothing. -/
def procFail : List String → FS → ProcResult × FS :=
  fun _ fs => (ProcResult.mk 1 "boom", fs)

/-- An external process that exits with status 0, writes its own
runner log and one output grid under `/work/out`. -/
def procOk : List String → FS → ProcResult × FS :=
  fun _ fs =>
    (ProcResult.mk 0 "all good",
     (fs.writeFile "/work/out/run1_runner.log" "RLOG").writeFile "/work/out/run1_fire.asc" "FIRE")

/-! ### Basic lemmas about the embedding -/

/-- Strings with equal character lists are equal. -/
theorem str_ext (a b : String) (h : a.data = b.data) : a = b := by
  cases a
  cases b
  exact congrArg String.mk h

/-- Character list of a concatenation. -/
theorem str_data_append (s t : String) : (s ++ t).data = s.data ++ t.data := by
  cases s; cases t; rfl

/-- `listStarts` is the boolean form of the list-prefix relation. -/
theorem listStarts_iff (pre l : List Char) :
    listStarts pre l = true ↔ ∃ t, l = pre ++ t := by
  induction pre generalizing l with
  | nil => simp [listStarts]
  | cons a as ih =>
    cases l with
    | nil => simp [listStarts]
    | cons b bs =>
      simp only [listStarts, Bool.and_eq_true, beq_iff_eq]
      constructor
      · rintro ⟨rfl, h⟩
        obtain ⟨t, rfl⟩ := (ih bs).mp h
        exact ⟨t, rfl⟩
      · rintro ⟨t, ht⟩
        obtain ⟨rfl, rfl⟩ := List.cons.inj ht
        exact ⟨rfl, (ih (as ++ t)).mpr ⟨t, rfl⟩⟩

/-- Cancelling a common leading run in `listStarts`. -/
theorem listStarts_append_cancel (a x y : List Char) :
    listStarts (a ++ x) (a ++ y) = listStarts x y := by
  induction a with
  | nil => rfl
  | cons c cs ih => simp [listStarts, ih]

/-- Ensuring a directory leaves the regular files untouched. -/
theorem ensureDir_files (fs : FS) (d : String) : (fs.ensureDir d).files = fs.files := by
  unfold FS.ensureDir
  split <;> rfl

/-- Ensuring a directory leaves the file-path listing untouched. -/
theorem ensureDir_paths (fs : FS) (d : String) : (fs.ensureDir d).paths = fs.paths := by
  unfold FS.paths
  rw [ensureDir_files]

/-- Ensuring a directory leaves glob results untouched. -/
theorem globMatches_ensureDir (fs : FS) (d s : String) :
    globMatches (fs.ensureDir d) s = globMatches fs s := by
  unfold globMatches
  rw [ensureDir_paths]

/-- Reading back a freshly written file yields the written content. -/
theorem lookup_write_self (fs : FS) (p c : String) :
    (fs.writeFile p c).lookupFile p = some c := by
  unfold FS.writeFile FS.lookupFile
  simp [List.lookup]

/-- Looking up `q` skips over the removal of every entry keyed `p ≠ q`. -/
theorem lookup_filter_ne (p q : String) (h : q ≠ p) :
    ∀ l : List (String × String), (l.filter (fun e => ! (e.1 = p))).lookup q = l.lookup q := by
  intro l
  induction l with
  | nil => rfl
  | cons e t ih =>
    obtain ⟨k, v⟩ := e
    by_cases hk : k = p
    · subst hk
      have hq : (q == k) = false := beq_eq_false_iff_ne.mpr h
      simp [List.filter_cons, List.lookup, hq, ih]
    · simp only [List.filter_cons, decide_eq_true_eq]
      rw [if_pos (by simpa using hk)]
      by_cases hqk : (q == k) = true <;> simp [List.lookup, hqk, ih]

/-- Writing one file does not disturb the content of another path. -/
theorem lookup_write_ne (fs : FS) (p c q : String) (h : q ≠ p) :
    (fs.writeFile p c).lookupFile q = fs.lookupFile q := by
  unfold FS.writeFile FS.lookupFile
  have hq : (q == p) = false := beq_eq_false_iff_ne.mpr h
  simp only [List.lookup, hq]
  exact lookup_filter_ne p q h fs.files

/-- A path listed in `fs.paths` has a content. -/
theorem lookup_mem_aux :
    ∀ (l : List (String × String)) (p : String), p ∈ l.map Prod.fst → ∃ c, l.lookup p = some c := by
  intro l
  induction l with
  | nil => intro p h; simp at h
  | cons e t ih =>
    intro p h
    obtain ⟨k, v⟩ := e
    by_cases hp : p = k
    · exact ⟨v, by simp [List.lookup, hp]⟩
    · have hmem : p ∈ t.map Prod.fst := by
        rw [List.map_cons] at h
        rcases List.mem_cons.mp h with h1 | h1
        · exact absurd h1 hp
        · exact h1
      obtain ⟨c, hc⟩ := ih p hmem
      refine ⟨c, ?_⟩
      have hpk : (p == k) = false := by simpa using hp
      simp [List.lookup, hpk, hc]

/-- File-presence version of the previous lemma. -/
theorem lookup_isSome_of_mem_paths (fs : FS) (p : String) (h : p ∈ fs.paths) :
    ∃ c, fs.lookupFile p = some c :=
  lookup_mem_aux fs.files p h

/-- Membership in the path listing after one write. -/
theorem mem_paths_writeFile (fs : FS) (p c q : String) :
    q ∈ (fs.writeFile p c).paths ↔ q = p ∨ q ∈ fs.paths := by
  unfold FS.writeFile FS.paths
  constructor
  · intro h
    simp only [List.map_cons, List.mem_cons] at h
    rcases h with h | h
    · exact Or.inl h
    · obtain ⟨e, he, rfl⟩ := List.mem_map.mp h
      exact Or.inr (List.mem_map.mpr ⟨e, (List.mem_filter.mp he).1, rfl⟩)
  · intro h
    rcases h with rfl | h
    · simp
    · by_cases hq : q = p
      · simp [hq]
      · obtain ⟨e, he, rfl⟩ := List.mem_map.mp h
        refine List.mem_cons_of_mem _ (List.mem_map.mpr ⟨e, List.mem_filter.mpr ⟨he, ?_⟩, rfl⟩)
        simpa using hq

/-- Writing a file leaves the recorded zip archives untouched. -/
theorem writeFile_zips (fs : FS) (p c : String) : (fs.writeFile p c).zips = fs.zips := rfl

/-- Unfolded shape of `classifyAndPackage`. -/
theorem classify_eq (input : InputModel) (rc : Int) (captured : String) (fs : FS) :
    classifyAndPackage input rc captured fs =
      if rc ≠ 0 then
        (fs.writeFile (fallbackLogOf input) captured,
         Except.error (PieceError.runtimeError rc
           (if (fs.writeFile (fallbackLogOf input) captured).pathExists runnerLogPathConst
            then runnerLogPathConst else fallbackLogOf input)
           (fallbackLogOf input)))
      else
        ((makeArchive (fs.writeFile (fallbackLogOf input) captured)
            ("/work/" ++ input.output_basename ++ "_outputs") "/work/out").1,
         Except.ok (OutputModel.mk
           (makeArchive (fs.writeFile (fallbackLogOf input) captured)
              ("/work/" ++ input.output_basename ++ "_outputs") "/work/out").2
           (if (fs.writeFile (fallbackLogOf input) captured).pathExists runnerLogPathConst
            then runnerLogPathConst else fallbackLogOf input))) := rfl

/-- Packaging does not change the regular files. -/
theorem makeArchive_files (fs : FS) (b r : String) : (makeArchive fs b r).1.files = fs.files := rfl

/-- Packaging does not change any file's content. -/
theorem makeArchive_lookup (fs : FS) (b r p : String) :
    (makeArchive fs b r).1.lookupFile p = fs.lookupFile p := rfl

/-- The zip path `makeArchive` returns. -/
theorem makeArchive_path (fs : FS) (b r : String) : (makeArchive fs b r).2 = b ++ ".zip" := rfl

/-! ### C10 — resolution succeeds although the primary itself is absent -/

/-- C10: on a filesystem holding `/data/ghost.dbf` but no
`/data/ghost.shp`, `_copy_shapefile_set` succeeds (the stem glob is
nonempty) and returns `/work/in/ghost.shp`, a path that does not
exist in the resulting state because the primary was never copied. -/
theorem ghost_primary_resolution :
    (copy_shapefile_set (FS.mk [("/data/ghost.dbf", "D")] [] []) "/data/ghost.shp" "/work/in").2
        = Except.ok "/work/in/ghost.shp"
    ∧ FS.lookupFile
        (copy_shapefile_set (FS.mk [("/data/ghost.dbf", "D")] [] []) "/data/ghost.shp" "/work/in").1
        "/work/in/ghost.shp" = none := by decide

/-! ### C8 — companion requirement -/

/-- C8 counterexample: a primary `.shp` with zero companion files
resolves successfully (the glob matches the primary itself, which the
code accepts), contradicting the claim that a FileSet without at
least one companion beyond the primary must fail. -/
theorem primary_alone_succeeds_cex :
    (copy_shapefile_set (FS.mk [("/data/solo.shp", "S")] [] []) "/data/solo.shp" "/work/in").2
        = Except.ok "/work/in/solo.shp"
    ∧ globMatches (FS.mk [("/data/solo.shp", "S")] [] []) (stemStr "/data/solo.shp")
        = ["/data/solo.shp"] := by decide

/-- C8 amended: for a path with the expected `.shp` extension,
`_copy_shapefile_set` fails with `FileNotFoundError` exactly when the
stem glob matches nothing at all; any nonempty match — the primary
alone included — suffices. -/
theorem resolve_err_iff_glob_empty (fs : FS) (p dst : String)
    (hsuf : lowerStr (suffixStr p) = ".shp") :
    (copy_shapefile_set fs p dst).2 = Except.error (PieceError.fileNotFound p)
      ↔ globMatches fs (stemStr p) = [] := by
  unfold copy_shapefile_set
  rw [if_neg (by simp [hsuf])]
  rw [globMatches_ensureDir]
  by_cases hm : globMatches fs (stemStr p) = [] <;> simp [hm]

/-- Concrete instance of `resolve_err_iff_glob_empty`. -/
theorem resolve_err_iff_glob_empty_witness :
    ((copy_shapefile_set (FS.mk [] [] []) "/data/x.shp" "/work/in").2
        = Except.error (PieceError.fileNotFound "/data/x.shp"))
      ↔ globMatches (FS.mk [] [] []) (stemStr "/data/x.shp") = [] :=
  resolve_err_iff_glob_empty (FS.mk [] [] []) "/data/x.shp" "/work/in" (by decide)

/-! ### C7 — wrong extension -/

/-- C7 counterexample: on a filesystem with no directories, a call
with a non-`.shp` path fails with `ValueError` but leaves the
destination directory created — the filesystem was modified, against
the claim of no modification whatsoever. -/
theorem resolve_bad_ext_cex :
    (copy_shapefile_set (FS.mk [] [] []) "/data/bad.txt" "/work/in").2
        = Except.error (PieceError.valueError "/data/bad.txt")
    ∧ (copy_shapefile_set (FS.mk [] [] []) "/data/bad.txt" "/work/in").1.dirs = ["/work/in"]
    ∧ (FS.mk [] [] [] : FS).dirs = [] := by decide

/-- C7 amended: on a path whose extension is not `.shp`
(case-insensitively), `_copy_shapefile_set` fails with `ValueError`
and copies no file, but it first ensures the destination directory
(the `_ensure_dir` call precedes the extension check). -/
theorem resolve_bad_ext (fs : FS) (p dst : String)
    (h : lowerStr (suffixStr p) ≠ ".shp") :
    copy_shapefile_set fs p dst = (fs.ensureDir dst, Except.error (PieceError.valueError p)) := by
  unfold copy_shapefile_set
  rw [if_pos h]

/-- Concrete instance of `resolve_bad_ext`. -/
theorem resolve_bad_ext_witness :
    copy_shapefile_set (FS.mk [] [] []) "/data/bad.txt" "/work/in" =
      ((FS.mk [] [] [] : FS).ensureDir "/work/in",
       Except.error (PieceError.valueError "/data/bad.txt")) :=
  resolve_bad_ext (FS.mk [] [] []) "/data/bad.txt" "/work/in" (by decide)

/-! ### C4 — unconditional overwrite of the fallback log -/

/-- C4: whatever the exit status, the state after classification
holds the captured text at the fallback log path; and repeating the
guaranteed-log write with different texts leaves only the most
recent one (write truncates, it does not append). -/
theorem guaranteed_log_write (input : InputModel) (rc : Int) (captured : String) (fs : FS) :
    (classifyAndPackage input rc captured fs).1.lookupFile (fallbackLogOf input) = some captured
    ∧ ∀ (q t1 t2 : String) (g : FS),
        ((g.writeFile q t1).writeFile q t2).lookupFile q = some t2 := by
  constructor
  · rw [classify_eq]
    split_ifs <;> exact lookup_write_self fs (fallbackLogOf input) captured
  · intro q t1 t2 g
    exact lookup_write_self (g.writeFile q t1) q t2

/-! ### C5 — authoritative-log selection -/

/-- C5: the log the run reports (the `runner_log_path` field on
success, the selected-log slot of the `RuntimeError` on failure) is
the expected runner log when that file exists after invocation, and
the fallback log otherwise. -/
theorem authoritative_log_selection (input : InputModel) (rc : Int) (captured : String) (fs : FS) :
    selectedLogOf (classifyAndPackage input rc captured fs) =
      some (if (fs.writeFile (fallbackLogOf input) captured).pathExists runnerLogPathConst
            then runnerLogPathConst else fallbackLogOf input) := by
  rw [classify_eq]
  split_ifs with h <;> rfl

/-! ### C6 — barrier argument resolution -/

/-- C6: once the three mandatory inputs are staged, a sentinel
barrier (`None`, the empty string, or `"0"`) leaves the filesystem
untouched and places the literal `"0"` in the command line, while any
other value goes through the full shapefile-set resolution and its
resolved primary path becomes the barrier argument. -/
theorem barrier_resolution (input : InputModel) (fs fs3 : FS) (l i g : String)
    (hstage : stageMandatory input fs = (fs3, Except.ok (l, i, g))) :
    (sentinelBarrier input.barrier_shp_path = true →
      piece_stage input fs =
        (fs3, Except.ok [wrapperPath, l, i, g, "0", outputBase, toString input.outputs_type]))
    ∧ (∀ b, input.barrier_shp_path = some b → sentinelBarrier input.barrier_shp_path = false →
      piece_stage input fs =
        ((copy_shapefile_set fs3 b "/work/in").1,
         Except.map
           (fun barg => [wrapperPath, l, i, g, barg, outputBase, toString input.outputs_type])
           (copy_shapefile_set fs3 b "/work/in").2)) := by
  constructor
  · intro hsent
    simp [piece_stage, hstage, hsent]
  · intro b hb hsent
    simp only [piece_stage, hstage]
    rw [if_neg (by simp [hsent])]
    rw [hb]
    simp only [Option.getD_some]
    rcases h : copy_shapefile_set fs3 b "/work/in" with ⟨fs4, r⟩
    cases r <;> simp [Except.map]

/-- Concrete instance of `barrier_resolution`: the sentinel `"0"`. -/
theorem barrier_resolution_witness :
    piece_stage input0 fs0 =
      ((stageMandatory input0 fs0).1,
       Except.ok [wrapperPath, "/work/in/area.lcp", "/work/in/run.input", "/work/in/ign.shp",
                  "0", outputBase, toString input0.outputs_type]) :=
  (barrier_resolution input0 fs0 (stageMandatory input0 fs0).1
      "/work/in/area.lcp" "/work/in/run.input" "/work/in/ign.shp" (by decide)).1 (by decide)

/-! ### C2 — failure branch -/

/-- The command line staged for the fixture request. -/
def cmd0 : List String :=
  [wrapperPath, "/work/in/area.lcp", "/work/in/run.input", "/work/in/ign.shp", "0", outputBase, "1"]

/-- C2 counterexample: on a failing run whose executable wrote no
runner log, the raised error carries the exit status and the fallback
log twice — the expected-runner-log candidate path does not appear in
the payload, contradicting "both candidate log paths". -/
theorem failure_payload_cex :
    rcOfError (piece_function procFail input0 fs0).2 = some 1
    ∧ errorPathsOf (piece_function procFail input0 fs0).2
        = ["/work/farsite_run_stdout.log", "/work/farsite_run_stdout.log"]
    ∧ runnerLogPathConst ∉ errorPathsOf (piece_function procFail input0 fs0).2 := by decide

/-- C2 amended: on a nonzero exit status the pipeline raises
`RuntimeError` carrying the exit status, the selected log (the runner
log when it exists, the fallback log otherwise) and the fallback log;
the fallback log exists holding the full captured output, and no
archive is produced (the zip records are exactly those the external
process left behind). -/
theorem failure_branch (proc : List String → FS → ProcResult × FS) (input : InputModel)
    (fs fs1 fs2 : FS) (cmd : List String) (r : ProcResult)
    (hstage : piece_stage input fs = (fs1, Except.ok cmd))
    (hproc : proc cmd fs1 = (r, fs2))
    (hrc : r.returncode ≠ 0) :
    piece_function proc input fs =
      (fs2.writeFile (fallbackLogOf input) r.stdout,
       Except.error (PieceError.runtimeError r.returncode
         (if (fs2.writeFile (fallbackLogOf input) r.stdout).pathExists runnerLogPathConst
          then runnerLogPathConst else fallbackLogOf input)
         (fallbackLogOf input)))
    ∧ (fs2.writeFile (fallbackLogOf input) r.stdout).lookupFile (fallbackLogOf input)
        = some r.stdout
    ∧ (fs2.writeFile (fallbackLogOf input) r.stdout).zips = fs2.zips := by
  refine ⟨?_, lookup_write_self fs2 (fallbackLogOf input) r.stdout, rfl⟩
  simp only [piece_function, hstage]
  simp only [hproc]
  rw [classify_eq, if_pos hrc]

/-- Concrete instance of `failure_branch`. -/
theorem failure_branch_witness :
    piece_function procFail input0 fs0 =
      ((piece_stage input0 fs0).1.writeFile (fallbackLogOf input0) "boom",
       Except.error (PieceError.runtimeError 1
         (if ((piece_stage input0 fs0).1.writeFile (fallbackLogOf input0) "boom").pathExists
              runnerLogPathConst
          then runnerLogPathConst else fallbackLogOf input0)
         (fallbackLogOf input0)))
    ∧ ((piece_stage input0 fs0).1.writeFile (fallbackLogOf input0) "boom").lookupFile
        (fallbackLogOf input0) = some "boom"
    ∧ ((piece_stage input0 fs0).1.writeFile (fallbackLogOf input0) "boom").zips
        = (piece_stage input0 fs0).1.zips :=
  failure_branch procFail input0 fs0 (piece_stage input0 fs0).1 (piece_stage input0 fs0).1 cmd0
    (ProcResult.mk 1 "boom") (by decide) rfl (by decide)

/-! ### Success branch: shared computation and path lemmas -/

/-- String concatenation is associative. -/
theorem str_append_assoc (a b c : String) : (a ++ b) ++ c = a ++ (b ++ c) :=
  str_ext _ _ (by
    rw [str_data_append, str_data_append, str_data_append, str_data_append, List.append_assoc])

/-- What `piece_function` returns when staging succeeded and the
process exited with status 0. -/
theorem pf_success_eq (proc : List String → FS → ProcResult × FS) (input : InputModel)
    (fs fs1 fs2 : FS) (cmd : List String) (r : ProcResult)
    (hstage : piece_stage input fs = (fs1, Except.ok cmd))
    (hproc : proc cmd fs1 = (r, fs2))
    (hrc : r.returncode = 0) :
    piece_function proc input fs =
      ((makeArchive (fs2.writeFile (fallbackLogOf input) r.stdout)
          ("/work/" ++ input.output_basename ++ "_outputs") "/work/out").1,
       Except.ok (OutputModel.mk
         ("/work/" ++ input.output_basename ++ "_outputs" ++ ".zip")
         (if (fs2.writeFile (fallbackLogOf input) r.stdout).pathExists runnerLogPathConst
          then runnerLogPathConst else fallbackLogOf input))) := by
  simp only [piece_function, hstage]
  simp only [hproc]
  rw [classify_eq, if_neg (by simp [hrc])]
  rfl

/-- The archive just recorded is found again at its path. -/
theorem zipLookup_makeArchive (fs : FS) (b r : String) :
    (makeArchive fs b r).1.zipLookup (b ++ ".zip") = some (archiveEntries fs r) := by
  unfold makeArchive FS.zipLookup
  simp [List.lookup]

/-- A path of the form `/work/<b><s>` with `b` and `s` slash-free is
not under `/work/out`. -/
theorem not_under_out (b s : String) (hb : ∀ c ∈ b.data, c ≠ '/') (hs : ∀ c ∈ s.data, c ≠ '/') :
    isUnder ("/work/" ++ b ++ s) "/work/out" = false := by
  by_contra h
  rw [Bool.not_eq_false] at h
  unfold isUnder at h
  obtain ⟨t, ht⟩ := (listStarts_iff _ _).mp h
  rw [str_data_append, str_data_append] at ht
  have hsplit : (("/work/out" ++ "/") : String).data
      = "/work/".data ++ ('o' :: 'u' :: 't' :: '/' :: List.nil) := by decide
  rw [hsplit] at ht
  rw [List.append_assoc, List.append_assoc] at ht
  have hcan := List.append_cancel_left ht
  have hmem : '/' ∈ b.data ++ s.data := by
    rw [hcan]; simp
  rcases List.mem_append.mp hmem with hm | hm
  · exact hb '/' hm rfl
  · exact hs '/' hm rfl

/-- A path under `/work/out` is not under `/work/in`. -/
theorem under_out_not_in (p : String) (h : isUnder p "/work/out" = true) :
    isUnder p "/work/in" = false := by
  by_contra hin
  rw [Bool.not_eq_false] at hin
  unfold isUnder at h hin
  obtain ⟨t, ht⟩ := (listStarts_iff _ _).mp h
  obtain ⟨u, hu⟩ := (listStarts_iff _ _).mp hin
  rw [ht] at hu
  have h1 : (("/work/out" ++ "/") : String).data
      = "/work/".data ++ ('o' :: 'u' :: 't' :: '/' :: List.nil) := by decide
  have h2 : (("/work/in" ++ "/") : String).data
      = "/work/".data ++ ('i' :: 'n' :: '/' :: List.nil) := by decide
  rw [h1, h2, List.append_assoc, List.append_assoc] at hu
  have hcan := List.append_cancel_left hu
  simp at hcan

/-- Every archive entry originates from a regular file under the
archived root. -/
theorem mem_archiveEntries (fs : FS) (root rel c : String)
    (h : (rel, c) ∈ archiveEntries fs root) :
    ∃ p, (p, c) ∈ fs.files ∧ isUnder p root = true ∧ rel = relTo root p := by
  unfold archiveEntries at h
  obtain ⟨e, he, hfe⟩ := List.mem_filterMap.mp h
  by_cases hu : isUnder e.1 root = true
  · rw [if_pos hu] at hfe
    obtain ⟨h1, h2⟩ := Prod.mk.injEq .. ▸ Option.some.inj hfe
    refine ⟨e.1, ?_, hu, h1.symm⟩
    have : e = (e.1, c) := by
      rw [← h2]
    rw [← this]
    exact he
  · rw [if_neg hu] at hfe
    simp at hfe

/-! ### C3 — success branch result -/

/-- C3: on exit status 0, the pipeline returns the archive at
`/work/<output_basename>_outputs.zip`, the recorded archive contents
are exactly the files under `/work/out` at packaging time (the final
state's files, which packaging leaves untouched), and the returned
log path exists on disk. -/
theorem success_branch (proc : List String → FS → ProcResult × FS) (input : InputModel)
    (fs fs1 fs2 : FS) (cmd : List String) (r : ProcResult)
    (hstage : piece_stage input fs = (fs1, Except.ok cmd))
    (hproc : proc cmd fs1 = (r, fs2))
    (hrc : r.returncode = 0) :
    piece_function proc input fs =
      ((makeArchive (fs2.writeFile (fallbackLogOf input) r.stdout)
          ("/work/" ++ input.output_basename ++ "_outputs") "/work/out").1,
       Except.ok (OutputModel.mk
         ("/work/" ++ input.output_basename ++ "_outputs" ++ ".zip")
         (if (fs2.writeFile (fallbackLogOf input) r.stdout).pathExists runnerLogPathConst
          then runnerLogPathConst else fallbackLogOf input)))
    ∧ FS.zipLookup (piece_function proc input fs).1
        ("/work/" ++ input.output_basename ++ "_outputs" ++ ".zip")
        = some (archiveEntries (fs2.writeFile (fallbackLogOf input) r.stdout) "/work/out")
    ∧ (piece_function proc input fs).1.files
        = (fs2.writeFile (fallbackLogOf input) r.stdout).files
    ∧ ((piece_function proc input fs).1.lookupFile
        (if (fs2.writeFile (fallbackLogOf input) r.stdout).pathExists runnerLogPathConst
         then runnerLogPathConst else fallbackLogOf input)).isSome = true := by
  have hpf := pf_success_eq proc input fs fs1 fs2 cmd r hstage hproc hrc
  have h1 : (piece_function proc input fs).1 =
      (makeArchive (fs2.writeFile (fallbackLogOf input) r.stdout)
        ("/work/" ++ input.output_basename ++ "_outputs") "/work/out").1 := by
    rw [hpf]
  refine ⟨hpf, ?_, ?_, ?_⟩
  · rw [h1]
    exact zipLookup_makeArchive (fs2.writeFile (fallbackLogOf input) r.stdout)
      ("/work/" ++ input.output_basename ++ "_outputs") "/work/out"
  · rw [h1]
    exact makeArchive_files _ _ _
  · rw [h1, makeArchive_lookup]
    split_ifs with hex
    · exact hex
    · rw [lookup_write_self]
      rfl

/-- The filesystem state the fixture's successful process leaves
behind: the staged state plus the runner log and one output grid. -/
def fs2ok : FS :=
  ((piece_stage input0 fs0).1.writeFile "/work/out/run1_runner.log" "RLOG").writeFile
    "/work/out/run1_fire.asc" "FIRE"

/-- Concrete instance of `success_branch`. -/
theorem success_branch_witness :
    piece_function procOk input0 fs0 =
      ((makeArchive (fs2ok.writeFile (fallbackLogOf input0) "all good")
          ("/work/" ++ input0.output_basename ++ "_outputs") "/work/out").1,
       Except.ok (OutputModel.mk
         ("/work/" ++ input0.output_basename ++ "_outputs" ++ ".zip")
         (if (fs2ok.writeFile (fallbackLogOf input0) "all good").pathExists runnerLogPathConst
          then runnerLogPathConst else fallbackLogOf input0))) :=
  (success_branch procOk input0 fs0 (piece_stage input0 fs0).1 fs2ok cmd0
    (ProcResult.mk 0 "all good") (by decide) rfl (by decide)).1

/-! ### C9 — layout invariants of the produced archive -/

/-- C9: when the output basename contains no path separator, the
archive lands at `/work/<output_basename>_outputs.zip`, which is not
under the archived root `/work/out`; neither is the fallback log; and
every archived entry comes from a file under `/work/out`, hence never
from the archive itself, the fallback log, or anything staged under
`/work/in`. -/
theorem archive_layout (proc : List String → FS → ProcResult × FS) (input : InputModel)
    (fs fs1 fs2 : FS) (cmd : List String) (r : ProcResult)
    (hb : ∀ c ∈ input.output_basename.data, c ≠ '/')
    (hstage : piece_stage input fs = (fs1, Except.ok cmd))
    (hproc : proc cmd fs1 = (r, fs2))
    (hrc : r.returncode = 0) :
    (piece_function proc input fs).2 =
      Except.ok (OutputModel.mk
        ("/work/" ++ input.output_basename ++ "_outputs" ++ ".zip")
        (if (fs2.writeFile (fallbackLogOf input) r.stdout).pathExists runnerLogPathConst
         then runnerLogPathConst else fallbackLogOf input))
    ∧ isUnder ("/work/" ++ input.output_basename ++ "_outputs" ++ ".zip") "/work/out" = false
    ∧ isUnder (fallbackLogOf input) "/work/out" = false
    ∧ ∀ rel c,
        (rel, c) ∈ archiveEntries (fs2.writeFile (fallbackLogOf input) r.stdout) "/work/out" →
        ∃ p, (p, c) ∈ (fs2.writeFile (fallbackLogOf input) r.stdout).files
          ∧ isUnder p "/work/out" = true
          ∧ p ≠ "/work/" ++ input.output_basename ++ "_outputs" ++ ".zip"
          ∧ p ≠ fallbackLogOf input
          ∧ isUnder p "/work/in" = false := by
  have hzp : ("/work/" ++ input.output_basename ++ "_outputs" ++ ".zip" : String)
      = "/work/" ++ input.output_basename ++ ("_outputs" ++ ".zip") :=
    str_append_assoc ("/work/" ++ input.output_basename) "_outputs" ".zip"
  have hzf : isUnder ("/work/" ++ input.output_basename ++ "_outputs" ++ ".zip") "/work/out"
      = false := by
    rw [hzp]
    exact not_under_out input.output_basename ("_outputs" ++ ".zip") hb (by decide)
  have hff : isUnder (fallbackLogOf input) "/work/out" = false :=
    not_under_out input.output_basename "_stdout.log" hb (by decide)
  refine ⟨by rw [pf_success_eq proc input fs fs1 fs2 cmd r hstage hproc hrc], hzf, hff, ?_⟩
  intro rel c hmem
  obtain ⟨p, hpmem, hpunder, hprel⟩ :=
    mem_archiveEntries (fs2.writeFile (fallbackLogOf input) r.stdout) "/work/out" rel c hmem
  refine ⟨p, hpmem, hpunder, ?_, ?_, under_out_not_in p hpunder⟩
  · intro heq
    rw [heq, hzf] at hpunder
    exact Bool.false_ne_true hpunder
  · intro heq
    rw [heq, hff] at hpunder
    exact Bool.false_ne_true hpunder

/-- Concrete instance of `archive_layout`. -/
theorem archive_layout_witness :
    (piece_function procOk input0 fs0).2 =
      Except.ok (OutputModel.mk
        ("/work/" ++ input0.output_basename ++ "_outputs" ++ ".zip")
        (if (fs2ok.writeFile (fallbackLogOf input0) "all good").pathExists runnerLogPathConst
         then runnerLogPathConst else fallbackLogOf input0))
    ∧ isUnder ("/work/" ++ input0.output_basename ++ "_outputs" ++ ".zip") "/work/out" = false := by
  have h := archive_layout procOk input0 fs0 (piece_stage input0 fs0).1 fs2ok cmd0
    (ProcResult.mk 0 "all good") (by decide) (by decide) rfl (by decide)
  exact ⟨h.1, h.2.1⟩

/-! ### C1 — shapefile-set resolution copies exactly the matched set -/

/-- Folding the basename scanner over slash-free input appends it to
the accumulator. -/
theorem foldl_basenameStep_noSlash :
    ∀ (t : List Char), (∀ c ∈ t, c ≠ '/') →
      ∀ init, t.foldl basenameStep init = init ++ t := by
  intro t
  induction t with
  | nil => intro _ init; simp
  | cons c rest ih =>
    intro ht init
    have hc : c ≠ '/' := ht c (List.mem_cons_self c rest)
    have hrest : ∀ x ∈ rest, x ≠ '/' := fun x hx => ht x (List.mem_cons_of_mem c hx)
    rw [List.foldl_cons, ih hrest (basenameStep init c)]
    unfold basenameStep
    rw [if_neg hc]
    simp

/-- Appending a slash-free tail extends the basename by that tail. -/
theorem basenameChars_append (s t : List Char) (ht : ∀ c ∈ t, c ≠ '/') :
    basenameChars (s ++ t) = basenameChars s ++ t := by
  unfold basenameChars
  rw [List.foldl_append]
  exact foldl_basenameStep_noSlash t ht _

/-- A glob match decomposes as the stem, a dot, and a slash-free
remainder. -/
theorem globMatch_decomp (stem q : List Char) (h : globMatchStem stem q = true) :
    ∃ rest, q = stem ++ '.' :: rest ∧ ∀ c ∈ rest, c ≠ '/' := by
  unfold globMatchStem at h
  rw [Bool.and_eq_true] at h
  obtain ⟨h1, h2⟩ := h
  obtain ⟨t, ht⟩ := (listStarts_iff _ _).mp h1
  have hq : q = stem ++ '.' :: t := by rw [ht]; simp
  refine ⟨t, hq, ?_⟩
  intro c hc
  have hdrop : q.drop (stem.length + 1) = t := by
    rw [hq]
    have hform : stem ++ '.' :: t = (stem ++ ['.']) ++ t := by simp
    have hlen : stem.length + 1 = (stem ++ ['.']).length := by simp
    rw [hform, hlen, List.drop_left]
  rw [hdrop] at h2
  have := List.all_eq_true.mp h2 c hc
  simpa using this

/-- Membership in the glob result. -/
theorem mem_globMatches (fs : FS) (stem q : String) :
    q ∈ globMatches fs stem ↔ q ∈ FS.paths fs ∧ globMatchStem stem.data q.data = true := by
  unfold globMatches
  rw [List.mem_filter]

/-- Two glob matches with the same destination path are the same
source path: the stem is common, so the basenames determine the
remainders. -/
theorem dest_inj (dst : String) (stemD : List Char) (q1 q2 : String)
    (h1 : globMatchStem stemD q1.data = true) (h2 : globMatchStem stemD q2.data = true)
    (heq : dst ++ "/" ++ basename q1 = dst ++ "/" ++ basename q2) : q1 = q2 := by
  obtain ⟨r1, hq1, hr1⟩ := globMatch_decomp stemD q1.data h1
  obtain ⟨r2, hq2, hr2⟩ := globMatch_decomp stemD q2.data h2
  have hd := congrArg String.data heq
  simp only [str_data_append, List.append_assoc] at hd
  have hd1 := List.append_cancel_left hd
  have hd2 := List.append_cancel_left hd1
  have hdot1 : ∀ c ∈ ('.' :: r1 : List Char), c ≠ '/' := by
    intro c hc
    rcases List.mem_cons.mp hc with rfl | hc'
    · decide
    · exact hr1 c hc'
  have hdot2 : ∀ c ∈ ('.' :: r2 : List Char), c ≠ '/' := by
    intro c hc
    rcases List.mem_cons.mp hc with rfl | hc'
    · decide
    · exact hr2 c hc'
  have hb1 : (basename q1).data = basenameChars stemD ++ '.' :: r1 := by
    show basenameChars q1.data = _
    rw [hq1]
    exact basenameChars_append stemD ('.' :: r1) hdot1
  have hb2 : (basename q2).data = basenameChars stemD ++ '.' :: r2 := by
    show basenameChars q2.data = _
    rw [hq2]
    exact basenameChars_append stemD ('.' :: r2) hdot2
  rw [hb1, hb2] at hd2
  have hcan := List.append_cancel_left hd2
  have hr := List.cons.inj hcan
  apply str_ext
  rw [hq1, hq2, hr.2]

/-- `copyAll` preserves every already-present path. -/
theorem copyAll_paths_mono (dst : String) :
    ∀ (ms : List String) (fs : FS) (q : String),
      q ∈ fs.paths → q ∈ (copyAll dst fs ms).paths := by
  intro ms
  induction ms with
  | nil => intro fs q h; exact h
  | cons f rest ih =>
    intro fs q h
    simp only [copyAll]
    cases hl : fs.lookupFile f with
    | some c => exact ih _ q ((mem_paths_writeFile fs _ c q).mpr (Or.inr h))
    | none => exact ih fs q h

/-- Every path after `copyAll` was present before or is the
destination of one of the copied sources. -/
theorem copyAll_paths_subset (dst : String) :
    ∀ (ms : List String) (fs : FS) (q : String),
      q ∈ (copyAll dst fs ms).paths →
      q ∈ fs.paths ∨ ∃ f, f ∈ ms ∧ q = dst ++ "/" ++ basename f := by
  intro ms
  induction ms with
  | nil => intro fs q h; exact Or.inl h
  | cons f rest ih =>
    intro fs q h
    simp only [copyAll] at h
    cases hl : fs.lookupFile f with
    | some c =>
      rw [hl] at h
      rcases ih _ q h with h' | ⟨g, hg, hq⟩
      · rcases (mem_paths_writeFile fs _ c q).mp h' with rfl | h''
        · exact Or.inr ⟨f, List.mem_cons_self f rest, rfl⟩
        · exact Or.inl h''
      · exact Or.inr ⟨g, List.mem_cons_of_mem f hg, hq⟩
    | none =>
      rw [hl] at h
      rcases ih fs q h with h' | ⟨g, hg, hq⟩
      · exact Or.inl h'
      · exact Or.inr ⟨g, List.mem_cons_of_mem f hg, hq⟩

/-- When every source exists, `copyAll` creates every destination. -/
theorem copyAll_mem_dest (dst : String) :
    ∀ (ms : List String) (fs : FS), (∀ f ∈ ms, f ∈ fs.paths) →
      ∀ f ∈ ms, (dst ++ "/" ++ basename f) ∈ (copyAll dst fs ms).paths := by
  intro ms
  induction ms with
  | nil => intro fs _ f hf; exact absurd hf (List.not_mem_nil f)
  | cons g rest ih =>
    intro fs hall f hf
    obtain ⟨c, hc⟩ := lookup_isSome_of_mem_paths fs g (hall g (List.mem_cons_self g rest))
    simp only [copyAll]
    rw [hc]
    rcases List.mem_cons.mp hf with rfl | hf'
    · exact copyAll_paths_mono dst rest _ _ ((mem_paths_writeFile fs _ c _).mpr (Or.inl rfl))
    · apply ih _ ?_ f hf'
      intro x hx
      exact (mem_paths_writeFile fs _ c x).mpr (Or.inr (hall x (List.mem_cons_of_mem g hx)))

/-- Removing a single occurrence from a duplicate-free list drops its
length by one. -/
theorem length_filter_ne_of_nodup :
    ∀ (l : List String) (p : String), l.Nodup → p ∈ l →
      (l.filter (fun q => q ≠ p)).length + 1 = l.length := by
  intro l
  induction l with
  | nil => intro p _ hp; exact absurd hp (List.not_mem_nil p)
  | cons a t ih =>
    intro p hl hp
    rw [List.nodup_cons] at hl
    rcases List.mem_cons.mp hp with rfl | hp'
    · have hfilter : t.filter (fun q => q ≠ p) = t := by
        apply List.filter_eq_self.mpr
        intro x hx
        simp only [decide_eq_true_eq]
        intro hxp
        exact hl.1 (hxp ▸ hx)
      simp only [List.filter_cons]
      rw [if_neg (by simp), hfilter]
      simp
    · have hne : a ≠ p := fun hap => hl.1 (hap ▸ hp')
      simp only [List.filter_cons]
      rw [if_pos (by simp [hne])]
      have h' := ih p hl.2 hp'
      simp only [List.length_cons]
      omega

/-- C1: for a duplicate-free filesystem, a primary path with the
expected extension whose glob (the primary plus its N companions) is
matched, `_copy_shapefile_set` returns the destination path of the
primary, the N+1 destination paths are pairwise distinct and
basename-preserving, each is present afterwards, and nothing else is
created. -/
theorem fileset_resolution (fs : FS) (p dst : String) (N : Nat)
    (hwf : (FS.paths fs).Nodup)
    (hsuf : lowerStr (suffixStr p) = ".shp")
    (hp : p ∈ globMatches fs (stemStr p))
    (hN : ((globMatches fs (stemStr p)).filter (fun q => q ≠ p)).length = N) :
    ((globMatches fs (stemStr p)).map (fun f => dst ++ "/" ++ basename f)).Nodup
    ∧ ((globMatches fs (stemStr p)).map (fun f => dst ++ "/" ++ basename f)).length = N + 1
    ∧ (copy_shapefile_set fs p dst).2 = Except.ok (dst ++ "/" ++ basename p)
    ∧ (∀ f ∈ globMatches fs (stemStr p),
        (dst ++ "/" ++ basename f) ∈ FS.paths (copy_shapefile_set fs p dst).1)
    ∧ (∀ q ∈ FS.paths (copy_shapefile_set fs p dst).1,
        q ∈ FS.paths fs
        ∨ q ∈ (globMatches fs (stemStr p)).map (fun f => dst ++ "/" ++ basename f)) := by
  have hsuf' : ¬ (lowerStr (suffixStr p) ≠ ".shp") := by simp [hsuf]
  have hge : globMatches (fs.ensureDir dst) (stemStr p) = globMatches fs (stemStr p) :=
    globMatches_ensureDir fs dst (stemStr p)
  have hne : ¬ (globMatches (fs.ensureDir dst) (stemStr p) = []) := by
    rw [hge]
    exact List.ne_nil_of_mem hp
  have hcs : copy_shapefile_set fs p dst
      = (copyAll dst (fs.ensureDir dst) (globMatches fs (stemStr p)),
         Except.ok (dst ++ "/" ++ basename p)) := by
    unfold copy_shapefile_set
    rw [if_neg hsuf', if_neg hne, hge]
  have hmn : (globMatches fs (stemStr p)).Nodup := List.Nodup.filter _ hwf
  have hinj : ∀ x ∈ globMatches fs (stemStr p), ∀ y ∈ globMatches fs (stemStr p),
      (dst ++ "/" ++ basename x) = (dst ++ "/" ++ basename y) → x = y := by
    intro x hx y hy hxy
    exact dest_inj dst (stemStr p).data x y
      ((mem_globMatches fs (stemStr p) x).mp hx).2
      ((mem_globMatches fs (stemStr p) y).mp hy).2 hxy
  refine ⟨?_, ?_, ?_, ?_, ?_⟩
  · exact List.Nodup.map_on hinj hmn
  · rw [List.length_map]
    have h' := length_filter_ne_of_nodup (globMatches fs (stemStr p)) p hmn hp
    omega
  · rw [hcs]
  · intro f hf
    rw [hcs]
    apply copyAll_mem_dest dst _ _ ?_ f hf
    intro x hx
    rw [ensureDir_paths]
    exact ((mem_globMatches fs (stemStr p) x).mp hx).1
  · intro q hq
    rw [hcs] at hq
    rcases copyAll_paths_subset dst _ _ q hq with h' | ⟨g, hg, hq'⟩
    · rw [ensureDir_paths] at h'
      exact Or.inl h'
    · exact Or.inr (List.mem_map.mpr ⟨g, hg, hq'.symm⟩)

/-- A primary with two sidecars. -/
def fsC : FS :=
  FS.mk [("/data/ign.shp", "S"), ("/data/ign.dbf", "D"), ("/data/ign.prj", "P")] [] []

/-- Concrete instance of `fileset_resolution` with N = 2 sidecars. -/
theorem fileset_resolution_witness :
    ((globMatches fsC (stemStr "/data/ign.shp")).map
        (fun f => "/work/in" ++ "/" ++ basename f)).Nodup
    ∧ ((globMatches fsC (stemStr "/data/ign.shp")).map
        (fun f => "/work/in" ++ "/" ++ basename f)).length = 2 + 1
    ∧ (copy_shapefile_set fsC "/data/ign.shp" "/work/in").2
        = Except.ok ("/work/in" ++ "/" ++ basename "/data/ign.shp")
    ∧ (∀ f ∈ globMatches fsC (stemStr "/data/ign.shp"),
        ("/work/in" ++ "/" ++ basename f)
          ∈ FS.paths (copy_shapefile_set fsC "/data/ign.shp" "/work/in").1)
    ∧ (∀ q ∈ FS.paths (copy_shapefile_set fsC "/data/ign.shp" "/work/in").1,
        q ∈ FS.paths fsC
        ∨ q ∈ (globMatches fsC (stemStr "/data/ign.shp")).map
            (fun f => "/work/in" ++ "/" ++ basename f)) :=
  fileset_resolution fsC "/data/ign.shp" "/work/in" 2 (by decide) (by decide) (by decide)
    (by decide)

end Farsite
